import Mathlib

/-!
Verification of `SDR2_ADM1166_updates/src/adm1166_eeprom.c` (Intel-HEX
parser and ADM1166 EEPROM page-programming tool).

The development shallowly embeds the C program:
* the Intel-HEX streaming parser `parse_ihex` (with its helpers
  `get_token` and `get_hex_token`) as a state machine over a byte list;
* the structural validation loop of `main` as `validate`;
* the page-programming protocol (`program_chunk`, the retry loop and the
  page loop of `main`) over an abstract I2C device modelled as an explicit
  state-transition record `Device`, with every device operation recorded
  in a trace.

Machine integers are modelled as `Nat`; the C fields involved (`unsigned
char`, `unsigned short`) never overflow on the values the parser can
produce (2 hex digits < 256, 4 hex digits < 65536), so no modular
reduction is required at the assignments.
-/

namespace Adm1166

/-- A parsed Intel-HEX record, mirroring `struct ihex_chunk` (the `next`
pointer of the C linked list is represented by the position in a
`List IhexChunk`). -/
structure IhexChunk where
  addr : Nat
  len : Nat
  checksum : Nat
  data : List Nat
  deriving Repr, DecidableEq

/-- Parser states, mirroring `enum state`. -/
inductive PState where
  | startOfLine
  | lineLength
  | address
  | recType
  | dataSt
  | checksum
  | endOfFile
  | error
  | done
  deriving Repr, DecidableEq

/-- `get_token`: read one byte from the stream; fails at end of stream. -/
def get_token : List Nat → Option (Nat × List Nat)
  | [] => none
  | c :: rest => some (c, rest)

/-- Accumulating loop of `get_hex_token`: `*val <<= 4; *val |= digit`.
Accepts `0`-`9` (48-57) and uppercase `A`-`F` (65-70) only. -/
def getHexAux : Nat → Nat → List Nat → Option (Nat × List Nat)
  | 0, val, s => some (val, s)
  | n + 1, val, s =>
    match get_token s with
    | none => none
    | some (c, s') =>
      if 48 ≤ c ∧ c ≤ 57 then getHexAux n (val * 16 + (c - 48)) s'
      else if 65 ≤ c ∧ c ≤ 70 then getHexAux n (val * 16 + (c - 65 + 10)) s'
      else none

/-- `get_hex_token(fd, len, &val)`: read `len` hex characters and decode
them most-significant-first. -/
def get_hex_token (len : Nat) (s : List Nat) : Option (Nat × List Nat) :=
  getHexAux len 0 s

/-- The `STATE_DATA` loop body: read `n` byte values (2 hex characters
each) into the record buffer. -/
def readDataBytes : Nat → List Nat → Option (List Nat × List Nat)
  | 0, s => some ([], s)
  | n + 1, s =>
    match get_hex_token 2 s with
    | none => none
    | some (b, s') =>
      match readDataBytes n s' with
      | none => none
      | some (bs, s'') => some (b :: bs, s'')

/-- The full parser state: current `enum state` value, the record under
construction (`chunk`, NULL represented by `none`), the records already
committed to the `ihex_file` list (`file->first .. file->last`), and the
remaining input stream. -/
structure ParserSt where
  state : PState
  chunk : Option IhexChunk
  store : List IhexChunk
  input : List Nat
  deriving Repr, DecidableEq

/-- One iteration of the `while` loop of `parse_ihex`. -/
def parseStep (st : ParserSt) : ParserSt :=
  match st.state with
  | .startOfLine =>
    match get_token st.input with
    | none => { st with state := .error }
    | some (c, s') =>
      if c = 10 ∨ c = 13 ∨ c = 9 ∨ c = 32 then { st with input := s' }
      else if c = 58 then { st with state := .lineLength, input := s' }
      else { st with state := .error, input := s' }
  | .lineLength =>
    match get_hex_token 2 st.input with
    | none => { st with state := .error }
    | some (tmp, s') =>
      -- malloc + memset zeroes the record; `chunk->len = tmp`
      { st with state := .address,
                chunk := some ⟨0, tmp, 0, List.replicate tmp 0⟩,
                input := s' }
  | .address =>
    match get_hex_token 4 st.input with
    | none => { st with state := .error }
    | some (tmp, s') =>
      match st.chunk with
      | none => { st with state := .error }  -- unreachable from the initial state
      | some ch =>
        { st with state := .recType, chunk := some { ch with addr := tmp }, input := s' }
  | .recType =>
    match get_hex_token 2 st.input with
    | none => { st with state := .error }
    | some (tmp, s') =>
      if tmp = 0 then { st with state := .dataSt, input := s' }
      else if tmp = 1 then { st with state := .endOfFile, input := s' }
      else { st with input := s' }  -- no transition for other types: state unchanged
  | .dataSt =>
    match st.chunk with
    | none => { st with state := .error }  -- unreachable from the initial state
    | some ch =>
      match readDataBytes ch.len st.input with
      | none => { st with state := .error }
      | some (bytes, s') =>
        { st with state := .checksum, chunk := some { ch with data := bytes },
                  input := s' }
  | .checksum =>
    match get_hex_token 2 st.input with
    | none => { st with state := .error }
    | some (tmp, s') =>
      match st.chunk with
      | none => { st with state := .error }  -- unreachable from the initial state
      | some ch =>
        -- commit the completed record to the file list, chunk = NULL
        { state := .startOfLine, chunk := none,
          store := st.store ++ [{ ch with checksum := tmp }], input := s' }
  | .endOfFile =>
    -- NOTE: the C code calls get_hex_token(fd, 1, &tmp): ONE hex character
    match get_hex_token 1 st.input with
    | none => { st with state := .error }
    | some (tmp, s') =>
      if tmp = 0xff then { st with state := .done, input := s' }
      else { st with state := .error, input := s' }
  | .error => st
  | .done => st

/-- Rank used in the termination measure of the parse loop: the only
steps that consume no input are transitions into `error`, and
`dataSt → checksum` when the record length is zero. -/
def prank : PState → Nat
  | .dataSt => 2
  | .error => 0
  | .done => 0
  | _ => 1

/-- Termination measure for the parse loop. -/
def pmeasure (st : ParserSt) : Nat := 3 * st.input.length + prank st.state

/-- Fuelled iteration of the `while (state != STATE_ERROR && state != STATE_DONE)`
loop. `parseRunF_terminal` below proves the fuel used in `parse_ihex` always
suffices to reach a terminal state, so this models the unbounded C loop. -/
def parseRunF : Nat → ParserSt → ParserSt
  | 0, st => st
  | f + 1, st =>
    if st.state = .error ∨ st.state = .done then st
    else parseRunF f (parseStep st)

/-- Initial parser state on a given input stream. -/
def initSt (input : List Nat) : ParserSt :=
  ⟨.startOfLine, none, [], input⟩

/-- The parser state in which the `while` loop of `parse_ihex` terminates. -/
def parseFinal (input : List Nat) : ParserSt :=
  parseRunF (pmeasure (initSt input) + 1) (initSt input)

/-- `parse_ihex`: returns the record list (the contents of `ihex_file`)
when the loop ends in `STATE_DONE`, and a failure (`none`, the C return
value `-1`) otherwise. -/
def parse_ihex (input : List Nat) : Option (List IhexChunk) :=
  if (parseFinal input).state = .done then some (parseFinal input).store else none

/-! ## Device model and page-programming protocol -/

/-- One EEPROM operation issued to the device, as performed by
`adm_eeprom_read`, `adm_eeprom_erase` and `adm_eeprom_write`. -/
inductive IOp where
  | readOp (addr : Nat)
  | eraseOp (addr : Nat)
  | writeOp (addr : Nat) (data : List Nat)
  deriving Repr, DecidableEq

/-- The I2C device behind `adm_eeprom_read` / `adm_eeprom_erase` /
`adm_eeprom_write`, as an explicit state machine with state type `σ`.
`read` returns `none` when the underlying syscalls fail (the C functions
return a negative value) and the 32 page bytes otherwise; `erase` and
`write` return `false` on syscall failure. -/
structure Device (σ : Type) where
  read : σ → Nat → Option (List Nat) × σ
  erase : σ → Nat → Bool × σ
  write : σ → Nat → List Nat → Bool × σ

/-- Result of one `program_chunk` call: the C return value (0 on
success, -1 on failure), the device state afterwards, and the trace of
device operations issued. -/
structure ChunkResult (σ : Type) where
  ret : Int
  dst : σ
  trace : List IOp
  deriving Repr, DecidableEq

/-- `program_chunk(i2c_fd, chunk)`: read the current page; if it already
equals the desired 32 bytes (first 16 from `chunk`, next 16 from
`chunk->next`) return success; otherwise erase, write, read back and
compare. -/
def program_chunk {σ : Type} (dev : Device σ) (s : σ) (chunk cnext : IhexChunk) :
    ChunkResult σ :=
  let addr := chunk.addr
  match dev.read s addr with
  | (none, s0) => ⟨-1, s0, [.readOp addr]⟩
  | (some rbuf, s0) =>
    let wbuf := chunk.data.take 16 ++ cnext.data.take 16
    if wbuf = rbuf then ⟨0, s0, [.readOp addr]⟩
    else
      match dev.erase s0 addr with
      | (false, s1) => ⟨-1, s1, [.readOp addr, .eraseOp addr]⟩
      | (true, s1) =>
        match dev.write s1 addr wbuf with
        | (false, s2) => ⟨-1, s2, [.readOp addr, .eraseOp addr, .writeOp addr wbuf]⟩
        | (true, s2) =>
          match dev.read s2 addr with
          | (none, s3) =>
            ⟨-1, s3, [.readOp addr, .eraseOp addr, .writeOp addr wbuf, .readOp addr]⟩
          | (some rbuf2, s3) =>
            ⟨if rbuf2 = wbuf then 0 else -1, s3,
             [.readOp addr, .eraseOp addr, .writeOp addr wbuf, .readOp addr]⟩

/-- Result of the per-page retry loop: C return value, device state,
operation trace, and the number of `program_chunk` attempts made. -/
structure PageResult (σ : Type) where
  ret : Int
  dst : σ
  trace : List IOp
  attempts : Nat
  deriving Repr, DecidableEq

/-- The `do { retry++; ret = program_chunk(...); } while (ret != 0 && retry < 3)`
loop of `main`, with `k` the number of iterations still allowed
(`k = 3 - retry` on entry to the loop body). -/
def attemptLoop {σ : Type} (dev : Device σ) (c cn : IhexChunk) :
    Nat → σ → PageResult σ
  | 0, s => ⟨0, s, [], 0⟩  -- unreachable: the do-while always runs at least once
  | k + 1, s =>
    let r := program_chunk dev s c cn
    if r.ret ≠ 0 ∧ k ≠ 0 then
      let r2 := attemptLoop dev c cn k r.dst
      ⟨r2.ret, r2.dst, r.trace ++ r2.trace, r2.attempts + 1⟩
    else ⟨r.ret, r.dst, r.trace, 1⟩

/-- The retry loop of `main` for one page: `retry` starts at 0 and the
loop runs while `ret != 0 && retry < 3`, so at most 3 attempts. -/
def attemptPage {σ : Type} (dev : Device σ) (s : σ) (c cn : IhexChunk) :
    PageResult σ :=
  attemptLoop dev c cn 3 s

/-- The reserved-address test of the page loop of `main`. -/
def reservedAddr (a : Nat) : Bool :=
  decide ((0xF8A0 ≤ a ∧ a < 0xF900) ∨ (0xF9A0 ≤ a ∧ a < 0xFA00) ∨
          (0xFAA0 ≤ a ∧ a < 0xFB00) ∨ (0xFBA0 ≤ a ∧ a < 0xFC00))

/-- Result of the page-programming loop. -/
structure LoopResult (σ : Type) where
  ret : Int
  dst : σ
  trace : List IOp
  deriving Repr, DecidableEq

/-- The `for (chunk = ihex_file.first; chunk; chunk = chunk->next->next)`
loop of `main`. Stepping by `chunk->next->next` (and `program_chunk`
reading `chunk->next->data`) dereferences `chunk->next`; when the list
has a chunk without a successor at a visited position the C program
dereferences NULL, modelled by `none`. A failed page (after retries)
breaks out of the loop. -/
def progLoop {σ : Type} (dev : Device σ) : σ → List IhexChunk →
    Option (LoopResult σ)
  | s, [] => some ⟨0, s, []⟩
  | _, [_] => none  -- chunk->next is NULL and is dereferenced
  | s, c :: cn :: rest =>
    if reservedAddr c.addr then progLoop dev s rest  -- `continue`: no device I/O
    else
      let r := attemptPage dev s c cn
      if r.ret ≠ 0 then some ⟨r.ret, r.dst, r.trace⟩  -- `break`
      else
        match progLoop dev r.dst rest with
        | none => none
        | some r2 => some ⟨r2.ret, r2.dst, r.trace ++ r2.trace⟩

/-! ## Structural validation and the top level of `main` -/

/-- The validation loop of `main`: every record must have length 0x10
and the expected address (starting at the caller's base, stepping by
0x10), and no record with a 0x20-aligned address may be the last one. -/
def validate : List IhexChunk → Nat → Bool
  | [], _ => true
  | c :: rest, addr =>
    if c.len ≠ 0x10 ∨ c.addr ≠ addr then false
    else if c.addr % 0x20 = 0 ∧ rest = [] then false
    else validate rest (addr + 0x10)

/-- The two file descriptors `main` writes raw byte sequences to:
`hexFd` is the descriptor `fd` from `open(argv[1], 0)` (closed again
right after parsing) and `i2cFd` is the descriptor from
`open("/dev/i2c-0", O_RDWR)`. -/
inductive FDesc where
  | hexFd
  | i2cFd
  deriving Repr, DecidableEq

/-- Events of a run of `main` past the parse: raw 2-byte register writes
(`write(<fd>, buf, 2)`) and the EEPROM operations of the page loop
(which all go to the I2C device). -/
inductive MEvent where
  | rawWrite (fd : FDesc) (data : List Nat)
  | devOp (op : IOp)
  deriving Repr, DecidableEq

/-- `main` from the point where `parse_ihex` has returned a record list:
structural validation, opening and addressing `/dev/i2c-0`, the halt /
EEPROM-enable register writes, the page-programming loop, the final
`write(fd, {0x90, 0x00}, 2)` -- issued to the (already closed) hex-file
descriptor `fd`, not to `i2c_fd` -- and the exit code (`exit(1)` on the
early failures, and `main`'s `return 0` at the end regardless of the
loop result). Returns `none` when the page loop dereferences NULL. -/
def mainAfterParse {σ : Type} (recs : List IhexChunk) (i2cOk ioctlOk : Bool)
    (dev : Device σ) (s : σ) : Option (Nat × List MEvent) :=
  if ¬ validate recs 0xf800 then some (1, [])
  else if ¬ i2cOk then some (1, [])
  else if ¬ ioctlOk then some (1, [])
  else
    match progLoop dev s recs with
    | none => none
    | some r =>
      some (0,
        [MEvent.rawWrite .i2cFd [0x93, 0x01], MEvent.rawWrite .i2cFd [0x90, 0x05]]
        ++ r.trace.map MEvent.devOp
        ++ [MEvent.rawWrite .hexFd [0x90, 0x00]])

/-- All of `main`: open the hex file, parse it, then `mainAfterParse`. -/
def mainRun {σ : Type} (openOk : Bool) (input : List Nat) (i2cOk ioctlOk : Bool)
    (dev : Device σ) (s : σ) : Option (Nat × List MEvent) :=
  if ¬ openOk then some (1, [])
  else
    match parse_ihex input with
    | none => some (1, [])
    | some recs => mainAfterParse recs i2cOk ioctlOk dev s

/-! ## Spec-side predicates and concrete fixtures -/

/-- Formalisation of the spec's wording of structural validity, for
comparison with `validate`: every record has length 16 and address
`0xF800 + 16 * i`, and the last record's address is not 32-byte
aligned. -/
def specStoreValid (recs : List IhexChunk) : Prop :=
  (∀ i : Fin recs.length,
      (recs.get i).len = 16 ∧ (recs.get i).addr = 0xF800 + 16 * i.val) ∧
  (∀ l, recs.getLast? = some l → l.addr % 32 ≠ 0)

/-- The record/successor pairs visited by the page loop of `main`
(stepping two records at a time); `none` when a visited record has no
successor. -/
def pairUp : List IhexChunk → Option (List (IhexChunk × IhexChunk))
  | [] => some []
  | [_] => none
  | c :: cn :: rest =>
    match pairUp rest with
    | none => none
    | some ps => some ((c, cn) :: ps)

/-- A device whose reads always succeed, returning `target` from the
sixth read on (read counter in the state) and `bad` before that;
erase/write always succeed. With one page this makes the verify
read-back mismatch on attempts 1 and 2 and match on attempt 3. -/
def flakyDev (target bad : List Nat) : Device Nat where
  read := fun s _ => (some (if 5 ≤ s then target else bad), s + 1)
  erase := fun s _ => (true, s)
  write := fun s _ _ => (true, s)

/-- A stateless device whose reads always return `content` and whose
erase/write always succeed. -/
def constReadDev (content : List Nat) : Device Unit where
  read := fun s _ => (some content, s)
  erase := fun s _ => (true, s)
  write := fun s _ _ => (true, s)

/-- The byte stream of the canonical Intel-HEX end-of-file record
`:00000001FF`. -/
def eofLine : List Nat := [58, 48, 48, 48, 48, 48, 48, 48, 49, 70, 70]

/-- The byte stream of the Intel-HEX data record
`:10F8000000112233445566778899AABBCCDDEEFF00` (length 0x10, address
0xF800, type 00, payload 00 11 .. FF, checksum byte 00) followed by a
newline. -/
def dataLine : List Nat :=
  [58, 49, 48, 70, 56, 48, 48, 48, 48] ++
  [48, 48, 49, 49, 50, 50, 51, 51, 52, 52, 53, 53, 54, 54, 55, 55,
   56, 56, 57, 57, 65, 65, 66, 66, 67, 67, 68, 68, 69, 69, 70, 70] ++
  [48, 48, 10]

/-- A record at the base address 0xF800. -/
def rec1 : IhexChunk := ⟨0xF800, 16, 0, List.replicate 16 0⟩

/-- The successor record of `rec1`, at 0xF810. -/
def rec2 : IhexChunk := ⟨0xF810, 16, 0, List.replicate 16 1⟩

/-- A record whose address lies in the first reserved range. -/
def resRec : IhexChunk := ⟨0xF8A0, 16, 0, List.replicate 16 5⟩

/-- A record failing structural validation (length 15). -/
def badRec : IhexChunk := ⟨0xF800, 15, 0, List.replicate 15 0⟩

/-- A structurally valid two-record store: addresses 0xF800 and 0xF810,
length 16 each. -/
def recsPair : List IhexChunk := [rec1, rec2]

/-- The 32-byte page assembled from `recsPair`. -/
def pairTarget : List Nat := List.replicate 16 0 ++ List.replicate 16 1

/-- 32 bytes that differ from `pairTarget`. -/
def otherPage : List Nat := List.replicate 32 0xAA

/-! ## Termination of the parse loop -/

theorem get_token_length {s s' : List Nat} {c : Nat}
    (h : get_token s = some (c, s')) : s'.length + 1 = s.length := by
  cases s with
  | nil => simp [get_token] at h
  | cons a t =>
    simp only [get_token, Option.some.injEq, Prod.mk.injEq] at h
    obtain ⟨-, rfl⟩ := h
    simp

theorem getHexAux_length :
    ∀ (n v : Nat) (s : List Nat) (r : Nat) (s' : List Nat),
      getHexAux n v s = some (r, s') → s'.length + n = s.length := by
  intro n
  induction n with
  | zero =>
    intro v s r s' h
    simp only [getHexAux, Option.some.injEq, Prod.mk.injEq] at h
    obtain ⟨-, rfl⟩ := h
    simp
  | succ n ih =>
    intro v s r s' h
    cases s with
    | nil => simp [getHexAux, get_token] at h
    | cons c t =>
      simp only [getHexAux, get_token] at h
      split at h
      · have := ih _ _ _ _ h
        simp
        omega
      · split at h
        · have := ih _ _ _ _ h
          simp
          omega
        · simp at h

theorem get_hex_token_length {n : Nat} {s : List Nat} {r : Nat} {s' : List Nat}
    (h : get_hex_token n s = some (r, s')) : s'.length + n = s.length :=
  getHexAux_length n 0 s r s' h

theorem readDataBytes_length :
    ∀ (n : Nat) (s : List Nat) (bs s' : List Nat),
      readDataBytes n s = some (bs, s') → s'.length ≤ s.length := by
  intro n
  induction n with
  | zero =>
    intro s bs s' h
    simp only [readDataBytes, Option.some.injEq, Prod.mk.injEq] at h
    obtain ⟨-, rfl⟩ := h
    exact Nat.le_refl _
  | succ n ih =>
    intro s bs s' h
    simp only [readDataBytes] at h
    split at h
    · simp at h
    · rename_i b t hg
      split at h
      · simp at h
      · rename_i bs' t' hr
        simp only [Option.some.injEq, Prod.mk.injEq] at h
        obtain ⟨-, rfl⟩ := h
        have h1 := get_hex_token_length hg
        have h2 := ih _ _ _ hr
        omega

/-- Every non-terminal iteration of the parse loop strictly decreases
the measure `pmeasure`. -/
theorem parseStep_decreases (st : ParserSt)
    (h1 : st.state ≠ PState.error) (h2 : st.state ≠ PState.done) :
    pmeasure (parseStep st) < pmeasure st := by
  obtain ⟨state, chunk, store, input⟩ := st
  cases state with
  | startOfLine =>
    simp only [parseStep]
    split
    · simp [pmeasure, prank] <;> omega
    · rename_i c s' hg
      have := get_token_length hg
      split
      · simp [pmeasure, prank] <;> omega
      · split
        · simp [pmeasure, prank] <;> omega
        · simp [pmeasure, prank] <;> omega
  | lineLength =>
    simp only [parseStep]
    split
    · simp [pmeasure, prank] <;> omega
    · rename_i tmp s' hg
      have := get_hex_token_length hg
      simp [pmeasure, prank] <;> omega
  | address =>
    simp only [parseStep]
    split
    · simp [pmeasure, prank] <;> omega
    · rename_i tmp s' hg
      have := get_hex_token_length hg
      cases chunk with
      | none => simp [pmeasure, prank] <;> omega
      | some ch => simp [pmeasure, prank] <;> omega
  | recType =>
    simp only [parseStep]
    split
    · simp [pmeasure, prank] <;> omega
    · rename_i tmp s' hg
      have := get_hex_token_length hg
      split
      · simp [pmeasure, prank] <;> omega
      · split
        · simp [pmeasure, prank] <;> omega
        · simp [pmeasure, prank] <;> omega
  | dataSt =>
    cases chunk with
    | none => simp [parseStep, pmeasure, prank] <;> omega
    | some ch =>
      simp only [parseStep]
      split
      · simp [pmeasure, prank] <;> omega
      · rename_i bytes s' hr
        have := readDataBytes_length ch.len input bytes s' hr
        simp [pmeasure, prank] <;> omega
  | checksum =>
    simp only [parseStep]
    split
    · simp [pmeasure, prank] <;> omega
    · rename_i tmp s' hg
      have := get_hex_token_length hg
      cases chunk with
      | none => simp [pmeasure, prank] <;> omega
      | some ch => simp [pmeasure, prank] <;> omega
  | endOfFile =>
    simp only [parseStep]
    split
    · simp [pmeasure, prank] <;> omega
    · rename_i tmp s' hg
      have := get_hex_token_length hg
      split
      · simp [pmeasure, prank] <;> omega
      · simp [pmeasure, prank] <;> omega
  | error => exact absurd rfl h1
  | done => exact absurd rfl h2

/-- With fuel exceeding the measure, the fuelled runner reaches a
terminal state: the fuelled model coincides with the unbounded C loop. -/
theorem parseRunF_terminal :
    ∀ (f : Nat) (st : ParserSt), pmeasure st < f →
      (parseRunF f st).state = PState.error ∨ (parseRunF f st).state = PState.done := by
  intro f
  induction f with
  | zero => intro st h; omega
  | succ f ih =>
    intro st h
    by_cases hterm : st.state = PState.error ∨ st.state = PState.done
    · simpa [parseRunF, hterm] using hterm
    · push_neg at hterm
      obtain ⟨he, hd⟩ := hterm
      have hdec := parseStep_decreases st he hd
      have : ¬ (st.state = PState.error ∨ st.state = PState.done) := by
        push_neg; exact ⟨he, hd⟩
      rw [parseRunF, if_neg this]
      exact ih (parseStep st) (by omega)

/-- The parse loop always terminates in `error` or `done`. -/
theorem parseFinal_terminal (input : List Nat) :
    (parseFinal input).state = PState.error ∨ (parseFinal input).state = PState.done :=
  parseRunF_terminal _ _ (Nat.lt_succ_self _)

/-- A step of the parser changes the committed record list only when it
completes a line and returns to `startOfLine`. -/
theorem parseStep_store (st : ParserSt) :
    (parseStep st).store = st.store ∨ (parseStep st).state = PState.startOfLine := by
  obtain ⟨state, chunk, store, input⟩ := st
  cases state with
  | startOfLine =>
    simp only [parseStep]
    split
    · simp
    · split
      · simp
      · split <;> simp
  | lineLength =>
    simp only [parseStep]
    split <;> simp
  | address =>
    simp only [parseStep]
    split
    · simp
    · cases chunk <;> simp
  | recType =>
    simp only [parseStep]
    split
    · simp
    · split
      · simp
      · split <;> simp
  | dataSt =>
    cases chunk with
    | none => simp [parseStep]
    | some ch =>
      simp only [parseStep]
      split <;> simp
  | checksum =>
    simp only [parseStep]
    split
    · simp
    · cases chunk <;> simp
  | endOfFile =>
    simp only [parseStep]
    split
    · simp
    · split <;> simp
  | error => simp [parseStep]
  | done => simp [parseStep]

/-- C1: In `STATE_END_OF_FILE` the code calls `get_hex_token(fd, 1, &tmp)`,
reading ONE hex character (not a digit-pair), and then requires
`tmp == 0xff`; a single hex digit is at most `0xF`, so the check always
fails. Evaluating the parser on the canonical end-of-file record
`:00000001FF` shows the stream is rejected, and on input `FF...` the
end-of-file state consumes one character and transitions to `error`,
contradicting the claim that the value `0xFF` is accepted. -/
theorem eof_state_reads_one_char_and_always_rejects :
    parse_ihex eofLine = none ∧
    (∀ (ch : Option IhexChunk) (store : List IhexChunk) (rest : List Nat),
      (parseStep ⟨PState.endOfFile, ch, store, 70 :: 70 :: rest⟩).state = PState.error ∧
      (parseStep ⟨PState.endOfFile, ch, store, 70 :: 70 :: rest⟩).input = 70 :: rest) := by
  refine ⟨by decide, fun ch store rest => ?_⟩
  constructor <;> simp [parseStep, get_hex_token, getHexAux, get_token]

/-- C2: a well-formed Intel-HEX stream of one data record followed by a
valid end-of-file record does NOT parse successfully: the data record is
committed, but the end-of-file state's single-character read (see C1)
rejects the `FF` payload, so `parse_ihex` fails as a whole. -/
theorem wellformed_stream_parse_fails :
    parse_ihex (dataLine ++ eofLine) = none ∧
    (parseFinal (dataLine ++ eofLine)).state = PState.error ∧
    (parseFinal (dataLine ++ eofLine)).store =
      [⟨0xF800, 16, 0, [0x00, 0x11, 0x22, 0x33, 0x44, 0x55, 0x66, 0x77,
                        0x88, 0x99, 0xAA, 0xBB, 0xCC, 0xDD, 0xEE, 0xFF]⟩] := by
  refine ⟨by decide, by decide, by decide⟩

/-- C9: on a parse error the caller receives a failure result, not a
record list (`parse_ihex` returns `none` whenever the loop ends in
`STATE_ERROR`), and no step that moves into the error state ever commits
the record in progress to the store. -/
theorem parse_error_commits_nothing :
    (∀ input : List Nat,
        (parseFinal input).state = PState.error → parse_ihex input = none) ∧
    (∀ st : ParserSt,
        (parseStep st).state = PState.error → (parseStep st).store = st.store) := by
  constructor
  · intro input h
    simp [parse_ihex, h]
  · intro st h
    rcases parseStep_store st with hs | hs
    · exact hs
    · rw [h] at hs
      exact absurd hs (by decide)

/-- Witness for C9 at a concrete malformed input (the single byte `X`)
and a concrete erroring step with a non-empty committed store. -/
theorem parse_error_commits_nothing_witness :
    parse_ihex [88] = none ∧
    (parseStep ⟨PState.startOfLine, none, recsPair, [88]⟩).store = recsPair :=
  ⟨parse_error_commits_nothing.1 [88] (by decide),
   parse_error_commits_nothing.2 ⟨PState.startOfLine, none, recsPair, [88]⟩ (by decide)⟩

/-- The validation loop, for an arbitrary expected base address `a`,
accepts exactly the stores whose records all have length 16 and address
`a + 16 * i`, and whose last record's address is not 32-byte aligned. -/
theorem validate_iff_aux (recs : List IhexChunk) :
    ∀ a : Nat, validate recs a = true ↔
      ((∀ i : Fin recs.length,
          (recs.get i).len = 16 ∧ (recs.get i).addr = a + 16 * i.val) ∧
       (∀ l, recs.getLast? = some l → l.addr % 32 ≠ 0)) := by
  induction recs with
  | nil => intro a; simp [validate]
  | cons c rest ih =>
    intro a
    rw [validate]
    constructor
    · intro h
      by_cases hcl : c.len ≠ 0x10 ∨ c.addr ≠ a
      · rw [if_pos hcl] at h; simp at h
      · rw [if_neg hcl] at h
        push_neg at hcl
        obtain ⟨hlen, haddr⟩ := hcl
        by_cases hal : c.addr % 0x20 = 0 ∧ rest = []
        · rw [if_pos hal] at h; simp at h
        · rw [if_neg hal] at h
          have hrest := (ih (a + 0x10)).mp h
          refine ⟨?_, ?_⟩
          · intro i
            rcases i with ⟨iv, hi⟩
            cases iv with
            | zero => simpa [List.get, hlen] using haddr
            | succ n =>
              have hn : n < rest.length := by simpa using hi
              have := hrest.1 ⟨n, hn⟩
              simp only [List.get] at this ⊢
              refine ⟨this.1, ?_⟩
              rw [this.2]
              ring
          · intro l hl
            cases hre : rest with
            | nil =>
              subst hre
              simp only [List.getLast?_singleton, Option.some.injEq] at hl
              subst hl
              intro hc
              exact hal ⟨hc, rfl⟩
            | cons r2 t =>
              subst hre
              rw [List.getLast?_cons_cons] at hl
              exact hrest.2 l hl
    · rintro ⟨hidx, hlast⟩
      have h0 := hidx ⟨0, by simp⟩
      simp only [List.get] at h0
      obtain ⟨hlen, haddr⟩ := h0
      have haddr' : c.addr = a := by omega
      have hcl : ¬ (c.len ≠ 0x10 ∨ c.addr ≠ a) := by
        push_neg
        exact ⟨hlen, haddr'⟩
      rw [if_neg hcl]
      have hal : ¬ (c.addr % 0x20 = 0 ∧ rest = []) := by
        rintro ⟨hc, rfl⟩
        exact hlast c (by simp) hc
      rw [if_neg hal]
      refine (ih (a + 0x10)).mpr ⟨?_, ?_⟩
      · intro i
        rcases i with ⟨n, hn⟩
        have := hidx ⟨n + 1, by simpa using hn⟩
        simp only [List.get] at this ⊢
        refine ⟨this.1, ?_⟩
        rw [this.2]
        ring
      · intro l hl
        cases hre : rest with
        | nil => subst hre; simp at hl
        | cons r2 t =>
          subst hre
          refine hlast l ?_
          rw [List.getLast?_cons_cons]
          exact hl

/-- C5: structural validation from the fixed base `0xF800` accepts
exactly the stores described by the spec (`specStoreValid`): all lengths
16, addresses a contiguous run `0xF800 + 16 * i`, last address not
32-byte aligned; and whenever validation fails, `main` exits with code 1
before issuing any device event. -/
theorem validate_matches_spec :
    (∀ recs : List IhexChunk, validate recs 0xF800 = true ↔ specStoreValid recs) ∧
    (∀ (σ : Type) (recs : List IhexChunk) (i2cOk ioctlOk : Bool)
        (dev : Device σ) (s : σ), validate recs 0xF800 = false →
        mainAfterParse recs i2cOk ioctlOk dev s = some (1, [])) := by
  constructor
  · intro recs
    exact validate_iff_aux recs 0xF800
  · intro σ recs i2cOk ioctlOk dev s h
    simp [mainAfterParse, h]

/-- Witness for C5: the two-record store `recsPair` satisfies the spec
predicate via validation, and the length-15 store `[badRec]` makes `main`
exit 1 with no device I/O. -/
theorem validate_matches_spec_witness :
    specStoreValid recsPair ∧
    mainAfterParse [badRec] true true (constReadDev otherPage) () = some (1, []) :=
  ⟨(validate_matches_spec.1 recsPair).mp (by decide),
   validate_matches_spec.2 Unit [badRec] true true (constReadDev otherPage) () (by decide)⟩

/-- C3: on every run of `main` that reaches the programming loop (the
event list is non-empty), the final teardown write `{0x90, 0x00}` is
issued on the hex-FILE descriptor `fd` (`write(fd, buf, 2)` at the end
of `main`) -- which was closed right after parsing -- and no event of
the run ever writes `{0x90, 0x00}` to the I2C device handle, so the
device is left halted, contradicting the claim. -/
theorem teardown_write_targets_hex_file_fd {σ : Type} (recs : List IhexChunk)
    (i2cOk ioctlOk : Bool) (dev : Device σ) (s : σ) (code : Nat) (evs : List MEvent)
    (h : mainAfterParse recs i2cOk ioctlOk dev s = some (code, evs)) (hne : evs ≠ []) :
    evs.getLast? = some (MEvent.rawWrite FDesc.hexFd [0x90, 0x00]) ∧
    ∀ e ∈ evs, e ≠ MEvent.rawWrite FDesc.i2cFd [0x90, 0x00] := by
  simp only [mainAfterParse] at h
  split at h
  · simp only [Option.some.injEq, Prod.mk.injEq] at h
    exact absurd h.2.symm hne
  · split at h
    · simp only [Option.some.injEq, Prod.mk.injEq] at h
      exact absurd h.2.symm hne
    · split at h
      · simp only [Option.some.injEq, Prod.mk.injEq] at h
        exact absurd h.2.symm hne
      · split at h
        · exact absurd h (by simp)
        · rename_i r hloop
          simp only [Option.some.injEq, Prod.mk.injEq] at h
          obtain ⟨-, hevs⟩ := h
          subst hevs
          constructor
          · rw [show ([MEvent.rawWrite FDesc.i2cFd [0x93, 0x01],
                       MEvent.rawWrite FDesc.i2cFd [0x90, 0x05]]
                      ++ r.trace.map MEvent.devOp
                      ++ [MEvent.rawWrite FDesc.hexFd [0x90, 0x00]]) =
                    ([MEvent.rawWrite FDesc.i2cFd [0x93, 0x01],
                      MEvent.rawWrite FDesc.i2cFd [0x90, 0x05]]
                     ++ r.trace.map MEvent.devOp)
                    ++ [MEvent.rawWrite FDesc.hexFd [0x90, 0x00]] from by
                  simp]
            exact List.getLast?_concat _
          · intro e he
            simp only [List.mem_append, List.mem_cons, List.mem_map,
                       List.mem_singleton, List.not_mem_nil, or_false] at he
            rcases he with ((rfl | rfl) | ⟨op, -, rfl⟩) | rfl <;> simp

/-- Witness for C3: a concrete run over `recsPair` with a device whose
page already matches; the event list ends with the raw write of
`{0x90, 0x00}` to the hex-file descriptor. -/
theorem teardown_write_targets_hex_file_fd_witness :
    ([MEvent.rawWrite FDesc.i2cFd [0x93, 0x01], MEvent.rawWrite FDesc.i2cFd [0x90, 0x05],
      MEvent.devOp (IOp.readOp 0xF800),
      MEvent.rawWrite FDesc.hexFd [0x90, 0x00]] : List MEvent).getLast? =
      some (MEvent.rawWrite FDesc.hexFd [0x90, 0x00]) ∧
    ∀ e ∈ ([MEvent.rawWrite FDesc.i2cFd [0x93, 0x01], MEvent.rawWrite FDesc.i2cFd [0x90, 0x05],
            MEvent.devOp (IOp.readOp 0xF800),
            MEvent.rawWrite FDesc.hexFd [0x90, 0x00]] : List MEvent),
      e ≠ MEvent.rawWrite FDesc.i2cFd [0x90, 0x00] :=
  teardown_write_targets_hex_file_fd recsPair true true (constReadDev pairTarget) () 0 _
    (by decide) (by decide)

/-- C4: evaluation of the exit-code paths. When the programming loop
fails unrecoverably (here: a device whose read-back never matches, so
the only page exhausts all 3 attempts and `progLoop` returns -1), `main`
still exits with code 0 -- `return 0` is unconditional -- contradicting
the claim; the parse-failure, validation-failure and open-failure paths
do exit 1. -/
theorem exit_code_zero_on_programming_failure :
    (progLoop (constReadDev otherPage) () recsPair).map LoopResult.ret = some (-1) ∧
    (mainAfterParse recsPair true true (constReadDev otherPage) ()).map Prod.fst = some 0 ∧
    (mainRun true eofLine true true (constReadDev otherPage) ()).map Prod.fst = some 1 ∧
    (mainAfterParse [badRec] true true (constReadDev otherPage) ()).map Prod.fst = some 1 ∧
    (mainAfterParse recsPair false true (constReadDev otherPage) ()).map Prod.fst = some 1 ∧
    (mainRun false [] true true (constReadDev otherPage) ()).map Prod.fst = some 1 := by
  exact ⟨by decide, by decide, by decide, by decide, by decide, by decide⟩

/-- C6: the erase/write/verify sequence for a page is attempted at most
3 times. With `flakyDev`, whose verify read-backs mismatch on attempts 1
and 2 and match on attempt 3, the page succeeds after exactly 3
attempts; with a device that never matches, the page fails after
exactly 3 attempts and the page loop breaks immediately: its result is
the failed page's result, independent of the remaining records `rest`. -/
theorem retry_bounded_three_attempts (c cn : IhexChunk) (rest : List IhexChunk)
    (bad : List Nat)
    (hb : bad ≠ c.data.take 16 ++ cn.data.take 16)
    (hr : reservedAddr c.addr = false) :
    (attemptPage (flakyDev (c.data.take 16 ++ cn.data.take 16) bad) 0 c cn).ret = 0 ∧
    (attemptPage (flakyDev (c.data.take 16 ++ cn.data.take 16) bad) 0 c cn).attempts = 3 ∧
    (attemptPage (constReadDev bad) () c cn).ret = -1 ∧
    (attemptPage (constReadDev bad) () c cn).attempts = 3 ∧
    progLoop (constReadDev bad) () (c :: cn :: rest) =
      some ⟨(attemptPage (constReadDev bad) () c cn).ret, (),
            (attemptPage (constReadDev bad) () c cn).trace⟩ := by
  have hb' : c.data.take 16 ++ cn.data.take 16 ≠ bad := Ne.symm hb
  refine ⟨?_, ?_, ?_, ?_, ?_⟩
  · simp [attemptPage, attemptLoop, program_chunk, flakyDev, hb, hb']
  · simp [attemptPage, attemptLoop, program_chunk, flakyDev, hb, hb']
  · simp [attemptPage, attemptLoop, program_chunk, constReadDev, hb, hb']
  · simp [attemptPage, attemptLoop, program_chunk, constReadDev, hb, hb']
  · have hret : (attemptPage (constReadDev bad) () c cn).ret = -1 := by
      simp [attemptPage, attemptLoop, program_chunk, constReadDev, hb, hb']
    simp [progLoop, hr, hret]

/-- Witness for C6 at the concrete page `rec1`/`rec2` with mismatching
device contents `otherPage`. -/
theorem retry_bounded_three_attempts_witness :
    (attemptPage (flakyDev (rec1.data.take 16 ++ rec2.data.take 16) otherPage)
        0 rec1 rec2).ret = 0 ∧
    (attemptPage (flakyDev (rec1.data.take 16 ++ rec2.data.take 16) otherPage)
        0 rec1 rec2).attempts = 3 ∧
    (attemptPage (constReadDev otherPage) () rec1 rec2).ret = -1 ∧
    (attemptPage (constReadDev otherPage) () rec1 rec2).attempts = 3 ∧
    progLoop (constReadDev otherPage) () (rec1 :: rec2 :: [resRec]) =
      some ⟨(attemptPage (constReadDev otherPage) () rec1 rec2).ret, (),
            (attemptPage (constReadDev otherPage) () rec1 rec2).trace⟩ :=
  retry_bounded_three_attempts rec1 rec2 [resRec] otherPage (by decide) (by decide)

/-- C7: a page whose address lies in one of the four reserved ranges is
skipped entirely: the page loop on `c :: cn :: rest` equals the page
loop on `rest` alone, for EVERY device and record contents -- zero
device I/O, zero retries for that page, and the loop continues. -/
theorem reserved_page_fully_skipped {σ : Type} (dev : Device σ) (s : σ)
    (c cn : IhexChunk) (rest : List IhexChunk)
    (h : (0xF8A0 ≤ c.addr ∧ c.addr ≤ 0xF8FF) ∨ (0xF9A0 ≤ c.addr ∧ c.addr ≤ 0xF9FF) ∨
         (0xFAA0 ≤ c.addr ∧ c.addr ≤ 0xFAFF) ∨ (0xFBA0 ≤ c.addr ∧ c.addr ≤ 0xFBFF)) :
    progLoop dev s (c :: cn :: rest) = progLoop dev s rest := by
  have hrsv : reservedAddr c.addr = true := by
    unfold reservedAddr
    rw [decide_eq_true_eq]
    omega
  simp [progLoop, hrsv]

/-- Witness for C7: the reserved-range record `resRec` (address 0xF8A0)
is skipped by the loop. -/
theorem reserved_page_fully_skipped_witness :
    progLoop (constReadDev otherPage) () (resRec :: rec2 :: recsPair) =
      progLoop (constReadDev otherPage) () recsPair :=
  reserved_page_fully_skipped (constReadDev otherPage) () resRec rec2 recsPair
    (by decide)

/-- C8: when the initial page read returns exactly the desired 32 bytes,
`program_chunk` reports success with a trace consisting of that single
read: zero erase operations and zero write operations. -/
theorem identical_page_short_circuits {σ : Type} (dev : Device σ) (s s0 : σ)
    (c cn : IhexChunk) (rbuf : List Nat)
    (hread : dev.read s c.addr = (some rbuf, s0))
    (heq : c.data.take 16 ++ cn.data.take 16 = rbuf) :
    program_chunk dev s c cn = ⟨0, s0, [IOp.readOp c.addr]⟩ := by
  simp [program_chunk, hread, heq]

/-- Witness for C8: a device whose page contents already equal the
`rec1`/`rec2` target. -/
theorem identical_page_short_circuits_witness :
    program_chunk (constReadDev pairTarget) () rec1 rec2 =
      ⟨0, (), [IOp.readOp 0xF800]⟩ :=
  identical_page_short_circuits (constReadDev pairTarget) () () rec1 rec2 pairTarget
    rfl (by decide)

/-- For stores accepted by `validate` from a 32-aligned base, the page
loop's `next->next` stepping is safe (every visited record has a
successor) and every visited pair is a well-formed page. -/
theorem valid_loop_aux :
    ∀ (n : Nat) (recs : List IhexChunk) (a : Nat), recs.length ≤ n → a % 32 = 0 →
      validate recs a = true →
      ((∃ ps, pairUp recs = some ps ∧
          ∀ p ∈ ps, p.2.addr = p.1.addr + 16 ∧ p.1.addr % 32 = 0) ∧
       (∀ (σ : Type) (dev : Device σ) (s : σ), (progLoop dev s recs).isSome = true)) := by
  intro n
  induction n with
  | zero =>
    intro recs a hlen ha hv
    have hnil : recs = [] := List.length_eq_zero.mp (Nat.le_zero.mp hlen)
    subst hnil
    exact ⟨⟨[], rfl, by simp⟩, fun σ dev s => by simp [progLoop]⟩
  | succ n ih =>
    intro recs a hlen ha hv
    match recs with
    | [] => exact ⟨⟨[], rfl, by simp⟩, fun σ dev s => by simp [progLoop]⟩
    | [c] =>
      exfalso
      rw [validate] at hv
      by_cases h1 : c.len ≠ 0x10 ∨ c.addr ≠ a
      · rw [if_pos h1] at hv; simp at hv
      · rw [if_neg h1] at hv
        push_neg at h1
        have hpos : c.addr % 0x20 = 0 ∧ ([] : List IhexChunk) = [] := by
          refine ⟨?_, rfl⟩
          rw [h1.2]
          omega
        rw [if_pos hpos] at hv
        simp at hv
    | c :: cn :: rest =>
      rw [validate] at hv
      by_cases h1 : c.len ≠ 0x10 ∨ c.addr ≠ a
      · rw [if_pos h1] at hv; simp at hv
      · rw [if_neg h1] at hv
        push_neg at h1
        obtain ⟨hclen, hcaddr⟩ := h1
        have hno : ¬ (c.addr % 0x20 = 0 ∧ cn :: rest = []) := by simp
        rw [if_neg hno] at hv
        rw [validate] at hv
        by_cases h2 : cn.len ≠ 0x10 ∨ cn.addr ≠ a + 0x10
        · rw [if_pos h2] at hv; simp at hv
        · rw [if_neg h2] at hv
          push_neg at h2
          obtain ⟨hcnlen, hcnaddr⟩ := h2
          have hno2 : ¬ (cn.addr % 0x20 = 0 ∧ rest = []) := by
            rintro ⟨hmod, -⟩
            rw [hcnaddr] at hmod
            omega
          rw [if_neg hno2] at hv
          have hlen' : rest.length ≤ n := by
            simp only [List.length_cons] at hlen
            omega
          have ha' : (a + 0x10 + 0x10) % 32 = 0 := by omega
          obtain ⟨⟨ps, hps, hprop⟩, hloop⟩ := ih rest (a + 0x10 + 0x10) hlen' ha' hv
          refine ⟨⟨(c, cn) :: ps, ?_, ?_⟩, ?_⟩
          · simp [pairUp, hps]
          · intro p hp
            rcases List.mem_cons.mp hp with rfl | hp
            · constructor
              · rw [hcaddr, hcnaddr]
              · rw [hcaddr]
                omega
            · exact hprop p hp
          · intro σ dev s
            by_cases hres : reservedAddr c.addr = true
            · rw [show progLoop dev s (c :: cn :: rest) = progLoop dev s rest from by
                simp [progLoop, hres]]
              exact hloop σ dev s
            · rw [Bool.not_eq_true] at hres
              by_cases hret : (attemptPage dev s c cn).ret ≠ 0
              · simp [progLoop, hres, hret]
              · push_neg at hret
                have hrest := hloop σ dev (attemptPage dev s c cn).dst
                rw [Option.isSome_iff_exists] at hrest
                obtain ⟨r2, hr2⟩ := hrest
                simp [progLoop, hres, hret, hr2]

/-- C10: for every record store accepted by structural validation, the
page loop's pairing is total -- `pairUp` succeeds, so `chunk->next` is
non-NULL at every visited record and the `next->next` step never
dereferences a missing record, and `progLoop` returns a result for every
device -- and every visited pair `(r, r')` satisfies
`r'.addr = r.addr + 16` with `r.addr` 32-byte aligned. -/
theorem valid_store_loop_safe (recs : List IhexChunk)
    (h : validate recs 0xF800 = true) :
    ((∃ ps, pairUp recs = some ps ∧
        ∀ p ∈ ps, p.2.addr = p.1.addr + 16 ∧ p.1.addr % 32 = 0) ∧
     (∀ (σ : Type) (dev : Device σ) (s : σ), (progLoop dev s recs).isSome = true)) :=
  valid_loop_aux recs.length recs 0xF800 (Nat.le_refl _) (by norm_num) h

/-- Witness for C10: the concrete valid store `recsPair` with a concrete
device. -/
theorem valid_store_loop_safe_witness :
    (progLoop (constReadDev otherPage) () recsPair).isSome = true :=
  (valid_store_loop_safe recsPair (by decide)).2 Unit (constReadDev otherPage) ()

end Adm1166
